import Mathlib

set_option autoImplicit false

/-!
# Verification of `src/packcreator.py` (Dvmeee/dc-packcreator)

Shallow embedding of the pure packaging logic of `packcreator.py`:
the simple packer `create_pack`, the vehicle-pack assembler
`create_carpack`, and the template writer `_write_template_files`.

Modelling choices:
* A filesystem path is a list of segments (`FPath`), understood as the
  result of Python's `Path(...).expanduser().resolve()`: absolute and
  normalized, so `resolve` is the identity in the model and two paths
  are equal iff their segment lists are equal.
* The filesystem is a function `FPath → FSNode` giving, for each path the
  program consults, whether it is absent, a regular file (with content),
  or a directory (with its subtree).
* Directory subtrees are given by the mutual types `FSTree`/`FSEntries`
  (a directory's children in listing order); `os.walk(top)` is modelled
  by structural walks that, for each directory, emit the regular files of
  that directory first and then recurse into its subdirectories in
  listing order — exactly the top-down order of `os.walk`.
* Archive writes and the other filesystem effects are collected in an
  effect trace (`List Effect`), in program order; an aborted run returns
  the trace of effects performed before the exception together with the
  error, mirroring Python's exception propagation.
* `datetime.now().strftime(...)` is modelled by a `timestamp` parameter.
-/

/-- A resolved absolute filesystem path, as a list of segments. -/
abbrev FPath := List String

mutual
/-- A directory entry's payload: a regular file with content, or a
subdirectory with its children. -/
inductive FSTree where
  | file (content : String) : FSTree
  | dir (children : FSEntries) : FSTree
deriving Repr, DecidableEq

/-- The children of a directory, in listing order. -/
inductive FSEntries where
  | nil : FSEntries
  | cons (name : String) (t : FSTree) (rest : FSEntries) : FSEntries
deriving Repr, DecidableEq
end

/-- Build `FSEntries` from a list literal. -/
def FSEntries.ofList : List (String × FSTree) → FSEntries
  | [] => .nil
  | (n, t) :: rest => .cons n t (FSEntries.ofList rest)

/-- A directory node from a list of children. -/
def FSTree.dirL (children : List (String × FSTree)) : FSTree :=
  .dir (.ofList children)

/-- What the filesystem holds at a consulted path: nothing, a regular
file, or a directory (with its subtree). -/
inductive FSNode where
  | absent : FSNode
  | file (content : String) : FSNode
  | dir (children : FSEntries) : FSNode
deriving Repr, DecidableEq

/-- The errors raised by the packaging core: `FileNotFoundError`,
`NotADirectoryError` (each naming the offending resolved path), and
`ValueError` with its message. -/
inductive PackError where
  | notFound (p : FPath) : PackError
  | notADirectory (p : FPath) : PackError
  | validation (msg : String) : PackError
deriving Repr, DecidableEq

deriving instance DecidableEq for Except

/-- Observable filesystem effects of a run, in program order. -/
inductive Effect where
  | mkdirOutput (p : FPath) : Effect
  | createArchiveFile (p : FPath) : Effect
  | writeEntry (name : String) (data : String) : Effect
deriving Repr, DecidableEq

/-- The archive entries written in a trace, in write order. -/
def entriesOf (tr : List Effect) : List (String × String) :=
  tr.filterMap fun e =>
    match e with
    | .writeEntry n d => some (n, d)
    | _ => none

/-- `PurePath.as_posix()` on a relative path given by its segments. -/
def posix (segs : List String) : String :=
  String.intercalate "/" segs

/-- `PurePath.name`: the last segment, `""` for an empty path. -/
def pathName (p : List String) : String :=
  p.getLast?.getD ""

/-- Index of the last `.` in a list of characters (Python `str.rfind`). -/
def lastDotIdx (cs : List Char) : Option Nat :=
  match cs.reverse.findIdx? (· = '.') with
  | some j => some (cs.length - 1 - j)
  | none => none

/-- Python `PurePath.suffix` of a file name: `name[i:]` where `i` is the
index of the last dot, provided `0 < i < len(name) - 1`, else `""`. -/
def pySuffix (name : String) : String :=
  let cs := name.data
  match lastDotIdx cs with
  | some i => if 0 < i ∧ i + 1 < cs.length then String.mk (cs.drop i) else ""
  | none => ""

/-- ASCII lowering of one character (`str.lower()` restricted to the
ASCII range, which covers every extension the program compares). -/
def lowerChar (c : Char) : Char :=
  if 'A' ≤ c ∧ c ≤ 'Z' then Char.ofNat (c.toNat + 32) else c

/-- Python `str.lower()` on ASCII text. -/
def strLower (s : String) : String :=
  String.mk (s.data.map lowerChar)

/-- `REQUIRED_PACK_FOLDERS` from the source. -/
def REQUIRED_PACK_FOLDERS : List String := ["audioconfig", "data", "stream", "sfx"]

/-- `META_EXTENSIONS` from the source. -/
def META_EXTENSIONS : List String := [".meta"]

/-- `STREAM_EXTENSIONS` from the source. -/
def STREAM_EXTENSIONS : List String := [".yft", ".ytd", ".ycd", ".ydr"]

/-- The four unconditional top-level directory-marker entries, in the
order `create_pack` and `create_carpack` write them. -/
def markerEntries : List (String × String) :=
  REQUIRED_PACK_FOLDERS.map fun folder_name => (folder_name ++ "/", "")

/-- One step of `os.walk` below a fixed top directory, split into the
pair (files emitted at the current directory, files emitted below its
subdirectories).  The concatenation `fst ++ snd` is the `os.walk`
emission order: all regular files of a directory (relative path from the
top, content), then the subdirectories in listing order, recursively. -/
def walkParts (rel : List String) : FSEntries →
    List (List String × String) × List (List String × String)
  | .nil => ([], [])
  | .cons n (.file c) rest =>
      let (f, d) := walkParts rel rest
      ((rel ++ [n], c) :: f, d)
  | .cons n (.dir cs) rest =>
      let (f, d) := walkParts rel rest
      let (f2, d2) := walkParts (rel ++ [n]) cs
      (f, (f2 ++ d2) ++ d)

/-- All regular files below a directory in `os.walk` order, as
(path relative to the top, content). -/
def walkFiles (cs : FSEntries) : List (List String × String) :=
  (walkParts [] cs).1 ++ (walkParts [] cs).2

/-- The classification of one vehicle file in `create_carpack`
(lines 166–183 of `packcreator.py`): from the vehicle name and the
file's path relative to the vehicle root (as `Path.parts`), the
destination path inside the archive, or `none` when the file is
dropped.  Translated branch for branch from the source;
`extension`/`inner_ext` are `Path.suffix.lower()` of the respective
paths. -/
def routeVehicleFile (vehicle_name : String) (relative_parts : List String) :
    Option FPath :=
  let extension := strLower (pySuffix (pathName relative_parts))
  if relative_parts ≠ [] ∧ relative_parts.head? = some "data" then
    let inner_relative := relative_parts.tail
    let inner_ext := strLower (pySuffix (pathName inner_relative))
    if inner_ext ∈ META_EXTENSIONS ∨ inner_ext ∈ STREAM_EXTENSIONS then
      some ("data" :: vehicle_name :: inner_relative)
    else
      none
  else if relative_parts ≠ [] ∧ relative_parts.head? = some "stream" then
    let inner_relative := relative_parts.tail
    let inner_ext := strLower (pySuffix (pathName inner_relative))
    if inner_ext ∈ STREAM_EXTENSIONS then
      some ("stream" :: vehicle_name :: inner_relative)
    else
      none
  else
    if extension ∈ META_EXTENSIONS then
      some ("data" :: vehicle_name :: relative_parts)
    else if extension ∈ STREAM_EXTENSIONS then
      some ("stream" :: vehicle_name :: relative_parts)
    else
      none

/-- The archive entries contributed by one vehicle directory in
`create_carpack` (lines 157–187): walk the vehicle root, skip files
named `fxmanifest.lua` and the file at the archive's own resolved path,
classify the rest with `routeVehicleFile`, and write survivors at their
destination (as a POSIX string). -/
def vehicleEntries (zip_path : FPath) (vehicle_root : FPath) (cs : FSEntries) :
    List (String × String) :=
  let vehicle_name := pathName vehicle_root
  (walkFiles cs).filterMap fun rc =>
    let file_name := pathName rc.1
    if file_name = "fxmanifest.lua" then none
    else if vehicle_root ++ rc.1 = zip_path then none
    else
      match routeVehicleFile vehicle_name rc.1 with
      | some target_path => some (posix target_path, rc.2)
      | none => none

/-- The recursive template copy of `_write_template_files`
(lines 41–61), under a fixed prefix (`audioconfig` or `sfx`): split as
(entries from files of the current directory, entries from below its
subdirectories).  For a subdirectory holding no regular files an
explicit empty directory marker `<prefix>/<rel>/` is written before its
deeper contents, mirroring
`if not files and relative_root != Path(".")`. -/
def templateWalkParts (pre : String) (rel : List String) : FSEntries →
    List (String × String) × List (String × String)
  | .nil => ([], [])
  | .cons n (.file c) rest =>
      let (f, d) := templateWalkParts pre rel rest
      ((posix (pre :: (rel ++ [n])), c) :: f, d)
  | .cons n (.dir cs) rest =>
      let (f, d) := templateWalkParts pre rel rest
      let (f2, d2) := templateWalkParts pre (rel ++ [n]) cs
      let marker :=
        if f2 = [] then [(posix (pre :: (rel ++ [n])) ++ "/", "")] else []
      (f, (marker ++ f2 ++ d2) ++ d)

/-- All archive entries the template copy writes for one source
directory under a prefix, in `os.walk` order.  At the top directory
(`relative_root == Path(".")`) no marker is written even if it holds no
files. -/
def templateWalk (pre : String) (cs : FSEntries) : List (String × String) :=
  (templateWalkParts pre [] cs).1 ++ (templateWalkParts pre [] cs).2

/-- `_write_template_files` (lines 26–61): validate the three template
inputs — `audioconfig_path` and `sfx_path` must be directories,
`fxmanifest_path` must be a regular file, checked in this order before
any write — then produce the template's archive entries: the manifest at
the archive root as `fxmanifest.lua`, then the `audioconfig` copy, then
the `sfx` copy. -/
def write_template_files (fs : FPath → FSNode)
    (audioconfig_path sfx_path fxmanifest_path : FPath) :
    Except PackError (List (String × String)) :=
  match fs audioconfig_path with
  | .dir audioChildren =>
      match fs sfx_path with
      | .dir sfxChildren =>
          match fs fxmanifest_path with
          | .file manifestContent =>
              .ok (("fxmanifest.lua", manifestContent)
                :: (templateWalk "audioconfig" audioChildren
                    ++ templateWalk "sfx" sfxChildren))
          | _ => .error (.notFound fxmanifest_path)
      | _ => .error (.notADirectory sfx_path)
  | _ => .error (.notADirectory audioconfig_path)

/-- The walk of `create_pack` (lines 87–102), split like `walkParts`:
while walking, a subdirectory whose resolved path equals the resolved
output directory is pruned (`dirs[:] = ...`), and a file whose resolved
path equals the resolved archive path is skipped (`continue`). -/
def walkPruneParts (source_path output_path zip_path : FPath)
    (rel : List String) : FSEntries →
    List (List String × String) × List (List String × String)
  | .nil => ([], [])
  | .cons n (.file c) rest =>
      let (f, d) := walkPruneParts source_path output_path zip_path rel rest
      if source_path ++ (rel ++ [n]) = zip_path then (f, d)
      else ((rel ++ [n], c) :: f, d)
  | .cons n (.dir cs) rest =>
      let (f, d) := walkPruneParts source_path output_path zip_path rel rest
      if source_path ++ (rel ++ [n]) = output_path then (f, d)
      else
        let (f2, d2) := walkPruneParts source_path output_path zip_path (rel ++ [n]) cs
        (f, (f2 ++ d2) ++ d)

/-- The files `create_pack` archives, in `os.walk` order, as
(path relative to the source directory, content). -/
def walkPrune (source_path output_path zip_path : FPath) (cs : FSEntries) :
    List (List String × String) :=
  (walkPruneParts source_path output_path zip_path [] cs).1
    ++ (walkPruneParts source_path output_path zip_path [] cs).2

/-- The archive file name chosen by `create_pack` (lines 75–79):
`<pack_name>.zip` for a truthy (non-empty) name, else
`pack_<timestamp>.zip`. -/
def packZipName (pack_name : Option String) (timestamp : String) : String :=
  match pack_name with
  | some n => if n ≠ "" then n ++ ".zip" else "pack_" ++ timestamp ++ ".zip"
  | none => "pack_" ++ timestamp ++ ".zip"

/-- The archive file name chosen by `create_carpack` (lines 131–135):
`<pack_name>.zip` for a truthy (non-empty) name, else
`carpack_<timestamp>.zip`. -/
def carpackZipName (pack_name : Option String) (timestamp : String) : String :=
  match pack_name with
  | some n => if n ≠ "" then n ++ ".zip" else "carpack_" ++ timestamp ++ ".zip"
  | none => "carpack_" ++ timestamp ++ ".zip"

/-- `create_pack` (lines 64–104): validate the source directory, create
the output directory, name the archive (`<name>.zip` for a truthy name,
else `pack_<timestamp>.zip`), create the archive file, write the four
directory markers, then archive every walked file under its
forward-slash relative path.  Returns the effect trace in program order
together with the archive path or the raised error. -/
def create_pack (fs : FPath → FSNode) (source_path output_path : FPath)
    (pack_name : Option String) (timestamp : String) :
    List Effect × Except PackError FPath :=
  match fs source_path with
  | .absent => ([], .error (.notFound source_path))
  | .file _ => ([], .error (.notADirectory source_path))
  | .dir children =>
      let zip_path := output_path ++ [packZipName pack_name timestamp]
      let fileEntries :=
        (walkPrune source_path output_path zip_path children).map fun rc =>
          (posix rc.1, rc.2)
      ([Effect.mkdirOutput output_path, Effect.createArchiveFile zip_path]
        ++ (markerEntries ++ fileEntries).map fun e => Effect.writeEntry e.1 e.2,
       .ok zip_path)

/-- The sequential validation of `vehicle_folders` in `create_carpack`
(lines 119–126): each folder must exist and be a directory; the first
failure raises, naming the offending resolved path. -/
def validateVehicles (fs : FPath → FSNode) :
    List FPath → Except PackError (List (FPath × FSEntries))
  | [] => .ok []
  | folder :: rest =>
      match fs folder with
      | .absent => .error (.notFound folder)
      | .file _ => .error (.notADirectory folder)
      | .dir cs =>
          match validateVehicles fs rest with
          | .error e => .error e
          | .ok v => .ok ((folder, cs) :: v)

/-- The template resolution of `create_carpack` (lines 139–145): if any
of the three individual template paths is missing, all three are derived
from `template_dir` (`audioconfig`, `sfx`, `fxmanifest.lua` under it);
if `template_dir` is then also missing, `ValueError` is raised. -/
def resolveTemplate (template_dir audioconfig_path sfx_path fxmanifest_path :
    Option FPath) : Except PackError (FPath × FPath × FPath) :=
  if audioconfig_path.isNone || sfx_path.isNone || fxmanifest_path.isNone then
    match template_dir with
    | none =>
        .error (.validation
          "Either individual template paths or template_dir must be provided.")
    | some template_path =>
        .ok (template_path ++ ["audioconfig"], template_path ++ ["sfx"],
          template_path ++ ["fxmanifest.lua"])
  else
    .ok (audioconfig_path.getD [], sfx_path.getD [], fxmanifest_path.getD [])

/-- `create_carpack` (lines 106–190): reject an empty vehicle list,
validate each vehicle folder, create the output directory, name the
archive (`<name>.zip` for a truthy name, else `carpack_<timestamp>.zip`),
resolve the template, create the archive file, write the four directory
markers, copy the template, then write each vehicle's classified
entries.  Returns the effect trace in program order together with the
archive path or the raised error. -/
def create_carpack (fs : FPath → FSNode) (vehicle_folders : List FPath)
    (output_folder : FPath) (pack_name : Option String)
    (template_dir audioconfig_path sfx_path fxmanifest_path : Option FPath)
    (timestamp : String) : List Effect × Except PackError FPath :=
  if vehicle_folders = [] then
    ([], .error (.validation "At least one vehicle folder must be provided."))
  else
    match validateVehicles fs vehicle_folders with
    | .error e => ([], .error e)
    | .ok resolved_vehicle_folders =>
        let zip_path := output_folder ++ [carpackZipName pack_name timestamp]
        match resolveTemplate template_dir audioconfig_path sfx_path fxmanifest_path with
        | .error e => ([Effect.mkdirOutput output_folder], .error e)
        | .ok (audio, sfx, manifest) =>
            match write_template_files fs audio sfx manifest with
            | .error e =>
                ([Effect.mkdirOutput output_folder, Effect.createArchiveFile zip_path]
                  ++ markerEntries.map fun e => Effect.writeEntry e.1 e.2,
                 .error e)
            | .ok templateEntries =>
                let vehicleAll :=
                  (resolved_vehicle_folders.map fun rc =>
                    vehicleEntries zip_path rc.1 rc.2).flatten
                ([Effect.mkdirOutput output_folder, Effect.createArchiveFile zip_path]
                  ++ (markerEntries ++ templateEntries ++ vehicleAll).map
                      fun e => Effect.writeEntry e.1 e.2,
                 .ok zip_path)

/-- The destination rule exactly as the specification words it: the same
three ordered cases keyed on the leading segment of the path relative to
the vehicle root, but always testing the (case-insensitively matched)
extension of the file itself. -/
def routeSpecRule (vehicleName : String) (relParts : List String) :
    Option FPath :=
  let ext := strLower (pySuffix (pathName relParts))
  if relParts ≠ [] ∧ relParts.head? = some "data" then
    if ext ∈ META_EXTENSIONS ∨ ext ∈ STREAM_EXTENSIONS then
      some ("data" :: vehicleName :: relParts.tail)
    else
      none
  else if relParts ≠ [] ∧ relParts.head? = some "stream" then
    if ext ∈ STREAM_EXTENSIONS then
      some ("stream" :: vehicleName :: relParts.tail)
    else
      none
  else
    if ext ∈ META_EXTENSIONS then
      some ("data" :: vehicleName :: relParts)
    else if ext ∈ STREAM_EXTENSIONS then
      some ("stream" :: vehicleName :: relParts)
    else
      none

/-- The vehicle-entry pipeline with the destination decided by
`routeSpecRule` instead of the source's `routeVehicleFile`. -/
def vehicleEntriesSpec (zip_path : FPath) (vehicle_root : FPath)
    (cs : FSEntries) : List (String × String) :=
  let vehicle_name := pathName vehicle_root
  (walkFiles cs).filterMap fun rc =>
    let file_name := pathName rc.1
    if file_name = "fxmanifest.lua" then none
    else if vehicle_root ++ rc.1 = zip_path then none
    else
      match routeSpecRule vehicle_name rc.1 with
      | some target_path => some (posix target_path, rc.2)
      | none => none

/-- All regular files below a directory, as (path relative to the top,
content): the reference enumeration the specification compares archive
contents with. -/
def allFilesFrom (rel : List String) : FSEntries → List (List String × String)
  | .nil => []
  | .cons n (.file c) rest => (rel ++ [n], c) :: allFilesFrom rel rest
  | .cons n (.dir cs) rest =>
      allFilesFrom (rel ++ [n]) cs ++ allFilesFrom rel rest

/-- One write into the archive viewed as a path-keyed map: a later write
to an existing archive path overwrites the stored content, a write to a
fresh path appends the entry.  This is the read-side semantics of
`zipfile` (`getinfo`/`read` return the last entry written under a
name). -/
def insertEntry (entries : List (String × String)) (e : String × String) :
    List (String × String) :=
  if entries.any fun x => x.1 = e.1 then
    entries.map fun x => if x.1 = e.1 then (x.1, e.2) else x
  else
    entries ++ [e]

/-- The archive as a path-keyed map, built from the write sequence. -/
def resolveEntries (writes : List (String × String)) : List (String × String) :=
  writes.foldl insertEntry []

/-- The content stored under a path in an entry list (first match). -/
def firstVal (entries : List (String × String)) (p : String) : Option String :=
  (entries.find? fun e => e.1 = p).map fun e => e.2

/-- The content of the last write to a path in a write sequence. -/
def lastWrite (writes : List (String × String)) (p : String) : Option String :=
  ((writes.filter fun e => e.1 = p).getLast?).map fun e => e.2

example : pySuffix "model.yft" = ".yft" := by decide
example : pySuffix "noext" = "" := by decide
example : pySuffix ".hidden" = "" := by decide
example : pySuffix "a." = "" := by decide
example : routeVehicleFile "car" ["vehicles.meta"] = some ["data", "car", "vehicles.meta"] := by decide
example : routeVehicleFile "car" ["model.yft"] = some ["stream", "car", "model.yft"] := by decide
example : routeVehicleFile "car" ["readme.txt"] = none := by decide
example : routeVehicleFile "car" ["data", "extra.yft"] = some ["data", "car", "extra.yft"] := by decide
example : routeVehicleFile "car" ["stream", "x.meta"] = none := by decide
example : routeVehicleFile "car" ["Model.YFT"] = some ["stream", "car", "Model.YFT"] := by decide

/-! ## Helper lemmas -/

/-- If every folder before `p` validates as a directory and `p` is
absent, sequential vehicle validation stops at `p` with
`FileNotFoundError`. -/
theorem validateVehicles_firstAbsent (fs : FPath → FSNode) (pre : List FPath)
    (p : FPath) (rest : List FPath)
    (hpre : ∀ q ∈ pre, ∃ cs, fs q = FSNode.dir cs)
    (hp : fs p = FSNode.absent) :
    validateVehicles fs (pre ++ p :: rest) = .error (.notFound p) := by
  induction pre with
  | nil => simp [validateVehicles, hp]
  | cons q qs ih =>
      obtain ⟨cs, hq⟩ := hpre q (List.mem_cons_self _ _)
      have ih2 := ih fun r hr => hpre r (List.mem_cons_of_mem _ hr)
      simp [validateVehicles, hq, ih2]

/-- If every folder before `p` validates as a directory and `p` is a
regular file, sequential vehicle validation stops at `p` with
`NotADirectoryError`. -/
theorem validateVehicles_firstFile (fs : FPath → FSNode) (pre : List FPath)
    (p : FPath) (rest : List FPath) (c : String)
    (hpre : ∀ q ∈ pre, ∃ cs, fs q = FSNode.dir cs)
    (hp : fs p = FSNode.file c) :
    validateVehicles fs (pre ++ p :: rest) = .error (.notADirectory p) := by
  induction pre with
  | nil => simp [validateVehicles, hp]
  | cons q qs ih =>
      obtain ⟨cs, hq⟩ := hpre q (List.mem_cons_self _ _)
      have ih2 := ih fun r hr => hpre r (List.mem_cons_of_mem _ hr)
      simp [validateVehicles, hq, ih2]

/-! ## Claims -/

/-- C8: `create_carpack` raises `ValidationError` (`ValueError`)
whenever the vehicle-folder list is empty, before any other validation
or filesystem effect (the effect trace of such a run is empty),
regardless of every other argument. -/
theorem C8_empty_vehicle_list_rejected (fs : FPath → FSNode)
    (output_folder : FPath) (pack_name : Option String)
    (template_dir audioconfig_path sfx_path fxmanifest_path : Option FPath)
    (timestamp : String) :
    create_carpack fs [] output_folder pack_name template_dir audioconfig_path
        sfx_path fxmanifest_path timestamp =
      ([], .error (.validation "At least one vehicle folder must be provided.")) := by
  rfl

/-- C7: referenced input paths are type-checked per the error taxonomy:
`create_pack` raises `FileNotFoundError` for an absent source and
`NotADirectoryError` for a source that is a regular file; and
`create_carpack` validates its vehicle list sequentially, raising
`FileNotFoundError` (resp. `NotADirectoryError`) for the first entry
that is absent (resp. a regular file), naming that entry, with an empty
effect trace — i.e. before any filesystem write. -/
theorem C7_path_type_validation :
    (∀ (fs : FPath → FSNode) (sp op : FPath) (nm : Option String) (ts : String),
      fs sp = FSNode.absent →
        create_pack fs sp op nm ts = ([], .error (.notFound sp))) ∧
    (∀ (fs : FPath → FSNode) (sp op : FPath) (nm : Option String) (ts : String)
        (c : String), fs sp = FSNode.file c →
        create_pack fs sp op nm ts = ([], .error (.notADirectory sp))) ∧
    (∀ (fs : FPath → FSNode) (pre : List FPath) (p : FPath) (rest : List FPath)
        (op : FPath) (nm : Option String) (td a s f : Option FPath) (ts : String),
      (∀ q ∈ pre, ∃ cs, fs q = FSNode.dir cs) → fs p = FSNode.absent →
        create_carpack fs (pre ++ p :: rest) op nm td a s f ts =
          ([], .error (.notFound p))) ∧
    (∀ (fs : FPath → FSNode) (pre : List FPath) (p : FPath) (rest : List FPath)
        (op : FPath) (nm : Option String) (td a s f : Option FPath) (ts : String)
        (c : String),
      (∀ q ∈ pre, ∃ cs, fs q = FSNode.dir cs) → fs p = FSNode.file c →
        create_carpack fs (pre ++ p :: rest) op nm td a s f ts =
          ([], .error (.notADirectory p))) := by
  refine ⟨?_, ?_, ?_, ?_⟩
  · intro fs sp op nm ts h
    simp [create_pack, h]
  · intro fs sp op nm ts c h
    simp [create_pack, h]
  · intro fs pre p rest op nm td a s f ts hpre hp
    have hv := validateVehicles_firstAbsent fs pre p rest hpre hp
    simp [create_carpack, hv]
  · intro fs pre p rest op nm td a s f ts c hpre hp
    have hv := validateVehicles_firstFile fs pre p rest c hpre hp
    simp [create_carpack, hv]

/-- `entriesOf` distributes over trace concatenation. -/
theorem entriesOf_append (l1 l2 : List Effect) :
    entriesOf (l1 ++ l2) = entriesOf l1 ++ entriesOf l2 := by
  simp [entriesOf]

/-- The entries of a pure write sequence are exactly the written pairs. -/
theorem entriesOf_mapWrites (l : List (String × String)) :
    entriesOf (l.map fun e => Effect.writeEntry e.1 e.2) = l := by
  induction l with
  | nil => rfl
  | cons e rest ih => simp [entriesOf] at ih ⊢; exact ih

/-- `PurePath.name` ignores all but the last segment. -/
theorem pathName_cons_cons (c x : String) (xs : List String) :
    pathName (c :: x :: xs) = pathName (x :: xs) := by
  simp [pathName, List.getLast?_cons_cons]

/-- Stripping a leading extensionless segment does not change the
(lowercased) suffix of the path's final component. -/
theorem strip_head_same_ext (c : String) (hc : pySuffix c = "")
    (t : List String) :
    strLower (pySuffix (pathName t)) = strLower (pySuffix (pathName (c :: t))) := by
  cases t with
  | nil =>
      show strLower (pySuffix "") = strLower (pySuffix c)
      rw [hc]
      decide
  | cons x xs => rw [pathName_cons_cons]

/-- The source's per-file classification agrees with the specification's
wording of the three ordered rules: testing the inner (stripped) path's
extension in the `data`/`stream` branches is the same as testing the
file's own extension, because the stripped leading segment never carries
the final component. -/
theorem routeVehicleFile_eq_routeSpecRule (n : String) (l : List String) :
    routeVehicleFile n l = routeSpecRule n l := by
  cases l with
  | nil => rfl
  | cons c t =>
      by_cases hd : c = "data"
      · subst hd
        have hcond : (("data" :: t : List String) ≠ [] ∧
            ("data" :: t : List String).head? = some "data") :=
          ⟨List.cons_ne_nil _ _, rfl⟩
        simp only [routeVehicleFile, routeSpecRule, List.tail_cons, if_pos hcond]
        rw [strip_head_same_ext "data" (by decide) t]
      · by_cases hs : c = "stream"
        · subst hs
          have hcond1 : ¬(("stream" :: t : List String) ≠ [] ∧
              ("stream" :: t : List String).head? = some "data") := by
            rintro ⟨-, h⟩
            simp at h
          have hcond2 : (("stream" :: t : List String) ≠ [] ∧
              ("stream" :: t : List String).head? = some "stream") :=
            ⟨List.cons_ne_nil _ _, rfl⟩
          simp only [routeVehicleFile, routeSpecRule, List.tail_cons,
            if_neg hcond1, if_pos hcond2]
          rw [strip_head_same_ext "stream" (by decide) t]
        · have hcond1 : ¬((c :: t : List String) ≠ [] ∧
              (c :: t : List String).head? = some "data") := by
            rintro ⟨-, h⟩
            simp only [List.head?_cons, Option.some.injEq] at h
            exact hd h
          have hcond2 : ¬((c :: t : List String) ≠ [] ∧
              (c :: t : List String).head? = some "stream") := by
            rintro ⟨-, h⟩
            simp only [List.head?_cons, Option.some.injEq] at h
            exact hs h
          simp only [routeVehicleFile, routeSpecRule,
            if_neg hcond1, if_neg hcond2]

/-- C1: every file met while walking a vehicle directory in
`create_carpack` — excluding files named `fxmanifest.lua` and the file
at the archive's own resolved path — is placed by the three ordered
rules exactly as the specification words them (leading `data` segment:
strip it, keep iff the case-insensitively matched extension is `.meta`
or streamable; leading `stream` segment: strip it, keep iff streamable;
otherwise: route `.meta` to `data/`, streamable to `stream/`, and drop
everything else): the source pipeline and the spec-worded pipeline
produce identical entries. -/
theorem C1_vehicle_routing_matches_spec :
    (∀ (n : String) (l : List String),
      routeVehicleFile n l = routeSpecRule n l) ∧
    (∀ (zip_path vehicle_root : FPath) (cs : FSEntries),
      vehicleEntries zip_path vehicle_root cs =
        vehicleEntriesSpec zip_path vehicle_root cs) := by
  refine ⟨routeVehicleFile_eq_routeSpecRule, ?_⟩
  intro zp root cs
  simp only [vehicleEntries, vehicleEntriesSpec,
    routeVehicleFile_eq_routeSpecRule]

/-- A path that properly extends `sp` cannot equal `op` when `sp` is
not a prefix of `op`. -/
theorem extension_ne_output (sp op : FPath) (hov : ¬ sp <+: op)
    (l : List String) : sp ++ l ≠ op := by
  intro h
  exact hov ⟨l, h⟩

/-- A nonempty extension of `sp` cannot equal `op ++ [z]` when `sp` is
not a prefix of `op`. -/
theorem extension_ne_zip (sp op : FPath) (hov : ¬ sp <+: op)
    (l : List String) (hl : l ≠ []) (z : String) : sp ++ l ≠ op ++ [z] := by
  intro h
  rcases List.prefix_concat_iff.mp ⟨l, h⟩ with heq | hpre
  · rw [heq] at h
    have hlen := congrArg List.length h
    simp only [List.length_append] at hlen
    exact hl (List.length_eq_zero.mp (by omega))
  · exact hov hpre

/-- Unfolding `walkParts` at a file child. -/
theorem walkParts_cons_file (rel : List String) (n c : String)
    (rest : FSEntries) :
    walkParts rel (.cons n (.file c) rest) =
      ((rel ++ [n], c) :: (walkParts rel rest).1, (walkParts rel rest).2) := rfl

/-- Unfolding `walkParts` at a directory child. -/
theorem walkParts_cons_dir (rel : List String) (n : String)
    (cs rest : FSEntries) :
    walkParts rel (.cons n (.dir cs) rest) =
      ((walkParts rel rest).1,
       ((walkParts (rel ++ [n]) cs).1 ++ (walkParts (rel ++ [n]) cs).2)
         ++ (walkParts rel rest).2) := rfl

/-- Unfolding `walkPruneParts` at a file child. -/
theorem walkPruneParts_cons_file (sp op zp : FPath) (rel : List String)
    (n c : String) (rest : FSEntries) :
    walkPruneParts sp op zp rel (.cons n (.file c) rest) =
      if sp ++ (rel ++ [n]) = zp then walkPruneParts sp op zp rel rest
      else ((rel ++ [n], c) :: (walkPruneParts sp op zp rel rest).1,
            (walkPruneParts sp op zp rel rest).2) := rfl

/-- Unfolding `walkPruneParts` at a directory child. -/
theorem walkPruneParts_cons_dir (sp op zp : FPath) (rel : List String)
    (n : String) (cs rest : FSEntries) :
    walkPruneParts sp op zp rel (.cons n (.dir cs) rest) =
      if sp ++ (rel ++ [n]) = op then walkPruneParts sp op zp rel rest
      else ((walkPruneParts sp op zp rel rest).1,
            ((walkPruneParts sp op zp (rel ++ [n]) cs).1
              ++ (walkPruneParts sp op zp (rel ++ [n]) cs).2)
              ++ (walkPruneParts sp op zp rel rest).2) := rfl

/-- When the output directory is not inside the source tree, the pruned
walk of `create_pack` visits everything: it agrees with the plain
walk. -/
theorem walkPruneParts_eq_walkParts (sp op : FPath) (z : String)
    (hov : ¬ sp <+: op) :
    ∀ (rel : List String) (cs : FSEntries),
      walkPruneParts sp op (op ++ [z]) rel cs = walkParts rel cs := by
  intro rel cs
  induction rel, cs using walkParts.induct with
  | case1 rel => rfl
  | case2 rel n c rest f d heq ih =>
      rw [walkPruneParts_cons_file, walkParts_cons_file, ih,
        if_neg (extension_ne_zip sp op hov (rel ++ [n]) (by simp) z)]
  | case3 rel n cs rest f d heq f2 d2 heq2 ih1 ih2 =>
      rw [walkPruneParts_cons_dir, walkParts_cons_dir, ih1, ih2,
        if_neg (extension_ne_output sp op hov (rel ++ [n]))]

/-- Membership in the `os.walk` file enumeration coincides with
membership in the plain file enumeration. -/
theorem walkParts_mem_allFiles (x : List String × String) :
    ∀ (rel : List String) (cs : FSEntries),
      (x ∈ (walkParts rel cs).1 ++ (walkParts rel cs).2) ↔
        x ∈ allFilesFrom rel cs := by
  intro rel cs
  induction rel, cs using walkParts.induct with
  | case1 rel => simp [walkParts, allFilesFrom]
  | case2 rel n c rest f d heq ih =>
      simp only [walkParts_cons_file, allFilesFrom, List.mem_append,
        List.mem_cons] at ih ⊢
      tauto
  | case3 rel n cs rest f d heq f2 d2 heq2 ih1 ih2 =>
      simp only [walkParts_cons_dir, allFilesFrom, List.mem_append,
        List.mem_cons] at ih1 ih2 ⊢
      tauto

/-- No file the pruned walk emits sits at the archive's own path. -/
theorem walkPruneParts_ne_zip (sp op zp : FPath) :
    ∀ (rel : List String) (cs : FSEntries),
      ∀ rc ∈ (walkPruneParts sp op zp rel cs).1
          ++ (walkPruneParts sp op zp rel cs).2,
        sp ++ rc.1 ≠ zp := by
  intro rel cs
  induction rel, cs using walkParts.induct with
  | case1 rel => simp [walkPruneParts]
  | case2 rel n c rest f d heq ih =>
      intro rc hrc
      rw [walkPruneParts_cons_file] at hrc
      by_cases hz : sp ++ (rel ++ [n]) = zp
      · rw [if_pos hz] at hrc
        exact ih rc hrc
      · rw [if_neg hz] at hrc
        simp only [List.mem_append, List.mem_cons] at hrc
        rcases hrc with (hrc | hrc) | hrc
        · subst hrc
          exact hz
        · exact ih rc (List.mem_append.mpr (Or.inl hrc))
        · exact ih rc (List.mem_append.mpr (Or.inr hrc))
  | case3 rel n cs rest f d heq f2 d2 heq2 ih1 ih2 =>
      intro rc hrc
      rw [walkPruneParts_cons_dir] at hrc
      by_cases ho : sp ++ (rel ++ [n]) = op
      · rw [if_pos ho] at hrc
        exact ih1 rc hrc
      · rw [if_neg ho] at hrc
        simp only [List.mem_append] at hrc
        rcases hrc with hrc | ((hrc | hrc) | hrc)
        · exact ih1 rc (List.mem_append.mpr (Or.inl hrc))
        · exact ih2 rc (List.mem_append.mpr (Or.inl hrc))
        · exact ih2 rc (List.mem_append.mpr (Or.inr hrc))
        · exact ih1 rc (List.mem_append.mpr (Or.inr hrc))

/-- Every file the pruned walk emits is reached only through directories
individually checked against the output path: no nonempty proper prefix
of an emitted relative path lands on `op`, given the same property for
the position walked so far. -/
theorem walkPruneParts_no_pruned_prefix (sp op zp : FPath) :
    ∀ (rel : List String) (cs : FSEntries),
      (∀ pre : List String, pre ≠ [] → pre <+: rel → sp ++ pre ≠ op) →
      ∀ rc ∈ (walkPruneParts sp op zp rel cs).1
          ++ (walkPruneParts sp op zp rel cs).2,
        ∀ pre : List String, pre ≠ [] → pre <+: rc.1 → pre ≠ rc.1 →
          sp ++ pre ≠ op := by
  intro rel cs
  induction rel, cs using walkParts.induct with
  | case1 rel => simp [walkPruneParts]
  | case2 rel n c rest f d heq ih =>
      intro hrel rc hrc
      rw [walkPruneParts_cons_file] at hrc
      by_cases hz : sp ++ (rel ++ [n]) = zp
      · rw [if_pos hz] at hrc
        exact ih hrel rc hrc
      · rw [if_neg hz] at hrc
        simp only [List.mem_append, List.mem_cons] at hrc
        rcases hrc with (hrc | hrc) | hrc
        · subst hrc
          intro pre hne hpre hproper
          rcases List.prefix_concat_iff.mp hpre with heq2 | hpre2
          · exact absurd heq2 hproper
          · exact hrel pre hne hpre2
        · exact ih hrel rc (List.mem_append.mpr (Or.inl hrc))
        · exact ih hrel rc (List.mem_append.mpr (Or.inr hrc))
  | case3 rel n cs rest f d heq f2 d2 heq2 ih1 ih2 =>
      intro hrel rc hrc
      rw [walkPruneParts_cons_dir] at hrc
      by_cases ho : sp ++ (rel ++ [n]) = op
      · rw [if_pos ho] at hrc
        exact ih1 hrel rc hrc
      · rw [if_neg ho] at hrc
        have hrel2 : ∀ pre : List String, pre ≠ [] → pre <+: rel ++ [n] →
            sp ++ pre ≠ op := by
          intro pre hne hpre
          rcases List.prefix_concat_iff.mp hpre with heq3 | hpre2
          · rw [heq3]
            exact ho
          · exact hrel pre hne hpre2
        simp only [List.mem_append] at hrc
        rcases hrc with hrc | ((hrc | hrc) | hrc)
        · exact ih1 hrel rc (List.mem_append.mpr (Or.inl hrc))
        · exact ih2 hrel2 rc (List.mem_append.mpr (Or.inl hrc))
        · exact ih2 hrel2 rc (List.mem_append.mpr (Or.inr hrc))
        · exact ih1 hrel rc (List.mem_append.mpr (Or.inr hrc))

/-- A place strictly below `sp ++ q` that `op` occupies decomposes as a
nonempty prefix of `q` appended to `sp`, when `op` is not above `sp`. -/
theorem output_decomposes (sp op q : FPath) (hov : ¬ op <+: sp)
    (h : op <+: sp ++ q) : ∃ pre, op = sp ++ pre ∧ pre <+: q ∧ pre ≠ [] := by
  obtain ⟨t, ht⟩ := h
  rcases List.append_eq_append_iff.mp ht with ⟨w, hw, -⟩ | ⟨w, hw1, hw2⟩
  · exact absurd ⟨w, hw.symm⟩ hov
  · refine ⟨w, hw1, ⟨t, hw2.symm⟩, ?_⟩
    intro hwnil
    rw [hwnil, List.append_nil] at hw1
    exact hov (hw1 ▸ List.prefix_refl op)

/-- The entry list of a successful `create_pack` run: the four markers,
then the walked files under their POSIX relative paths. -/
theorem create_pack_entries (fs : FPath → FSNode) (sp op : FPath)
    (nm : Option String) (ts : String) (cs : FSEntries)
    (hdir : fs sp = FSNode.dir cs) :
    entriesOf (create_pack fs sp op nm ts).1 =
      markerEntries ++ (walkPrune sp op (op ++ [packZipName nm ts]) cs).map
        fun rc => (posix rc.1, rc.2) := by
  have hrun : (create_pack fs sp op nm ts).1 =
      [Effect.mkdirOutput op,
       Effect.createArchiveFile (op ++ [packZipName nm ts])]
        ++ (markerEntries
            ++ (walkPrune sp op (op ++ [packZipName nm ts]) cs).map
                (fun rc => (posix rc.1, rc.2))).map
            fun e => Effect.writeEntry e.1 e.2 := by
    simp [create_pack, hdir]
  rw [hrun, entriesOf_append, List.map_append, entriesOf_append,
    entriesOf_mapWrites, entriesOf_mapWrites]
  rfl

/-- C6: `create_pack` never archives the archive file itself: every
walked file's absolute path differs from the archive's resolved path
(the per-file skip); moreover, whenever the output directory is not
above the source root, no walked file lies strictly below the output
directory (the per-directory prune); and the produced entries are
exactly the markers plus the walked files. -/
theorem C6_pack_never_includes_itself (fs : FPath → FSNode) (sp op : FPath)
    (nm : Option String) (ts : String) (cs : FSEntries)
    (hdir : fs sp = FSNode.dir cs) :
    (∀ rc ∈ walkPrune sp op (op ++ [packZipName nm ts]) cs,
        sp ++ rc.1 ≠ op ++ [packZipName nm ts]) ∧
    (¬ op <+: sp →
      ∀ rc ∈ walkPrune sp op (op ++ [packZipName nm ts]) cs,
        ¬(op <+: sp ++ rc.1 ∧ op ≠ sp ++ rc.1)) ∧
    entriesOf (create_pack fs sp op nm ts).1 =
      markerEntries ++ (walkPrune sp op (op ++ [packZipName nm ts]) cs).map
        fun rc => (posix rc.1, rc.2) := by
  refine ⟨?_, ?_, create_pack_entries fs sp op nm ts cs hdir⟩
  · intro rc hrc
    exact walkPruneParts_ne_zip sp op (op ++ [packZipName nm ts]) [] cs rc hrc
  · intro hov rc hrc
    rintro ⟨hunder, hne⟩
    obtain ⟨pre, hpre_eq, hpre_q, hpre_ne⟩ :=
      output_decomposes sp op rc.1 hov hunder
    have hproper : pre ≠ rc.1 := by
      intro h
      rw [h] at hpre_eq
      exact hne hpre_eq
    exact walkPruneParts_no_pruned_prefix sp op (op ++ [packZipName nm ts]) []
      cs (fun pre2 hne2 hpre2 => absurd (List.prefix_nil.mp hpre2) hne2)
      rc hrc pre hpre_ne hpre_q hproper hpre_eq.symm

/-- A source directory at `s` holding `a.meta` plus a subdirectory `out`
with a stale file, used with output directory `s/out` (nested inside the
source). -/
def fsFixtureD : FPath → FSNode := fun p =>
  if p = ["s"] then
    FSNode.dir (.ofList [("a.meta", FSTree.file "x"),
      ("out", FSTree.dirL [("old.zip", FSTree.file "old")])])
  else FSNode.absent

/-- Witness for C6 at a concrete input: with the output directory nested
inside the source, the produced archive contains only the markers and
`a.meta` — the output directory's contents (and hence the archive
itself) are never included. -/
theorem C6_pack_never_includes_itself_witness :
    entriesOf (create_pack fsFixtureD ["s"] ["s", "out"] (some "p") "ts").1 =
      markerEntries ++ [("a.meta", "x")] := by
  have h := C6_pack_never_includes_itself fsFixtureD ["s"] ["s", "out"]
    (some "p") "ts"
    (.ofList [("a.meta", FSTree.file "x"),
      ("out", FSTree.dirL [("old.zip", FSTree.file "old")])])
    (by decide)
  rw [h.2.2]
  decide

/-- C5 (amended): when the resolved output directory is not inside the
source directory, the entry set of a `create_pack` archive is the four
markers plus exactly the regular files below the source directory, each
keyed by its forward-slash relative path. -/
theorem C5_pack_entries_are_source_files (fs : FPath → FSNode) (sp op : FPath)
    (nm : Option String) (ts : String) (cs : FSEntries)
    (hdir : fs sp = FSNode.dir cs) (hov : ¬ sp <+: op) :
    ∀ e : String × String,
      e ∈ entriesOf (create_pack fs sp op nm ts).1 ↔
        (e ∈ markerEntries ∨
          ∃ rc ∈ allFilesFrom [] cs, e = (posix rc.1, rc.2)) := by
  intro e
  rw [create_pack_entries fs sp op nm ts cs hdir]
  have hpl : walkPrune sp op (op ++ [packZipName nm ts]) cs =
      (walkParts [] cs).1 ++ (walkParts [] cs).2 := by
    unfold walkPrune
    rw [walkPruneParts_eq_walkParts sp op (packZipName nm ts) hov]
  rw [hpl]
  simp only [List.mem_append, List.mem_map]
  constructor
  · rintro (h | ⟨rc, hrc, hf⟩)
    · exact Or.inl h
    · exact Or.inr ⟨rc, (walkParts_mem_allFiles rc [] cs).mp
        (List.mem_append.mpr hrc), hf.symm⟩
  · rintro (h | ⟨rc, hrc, hf⟩)
    · exact Or.inl h
    · exact Or.inr ⟨rc, List.mem_append.mp
        ((walkParts_mem_allFiles rc [] cs).mpr hrc), hf.symm⟩

/-- A source directory at `src2` holding a top-level file and a
subdirectory file, with the output directory elsewhere. -/
def fsFixtureE : FPath → FSNode := fun p =>
  if p = ["src2"] then
    FSNode.dir (.ofList [("f.txt", FSTree.file "y"),
      ("sub", FSTree.dirL [("g.meta", FSTree.file "z")])])
  else FSNode.absent

/-- Witness for C5 at a concrete input: with a disjoint output
directory, a nested source file appears in the archive under its
forward-slash relative path. -/
theorem C5_pack_entries_are_source_files_witness :
    ("sub/g.meta", "z") ∈
      entriesOf (create_pack fsFixtureE ["src2"] ["outdir"] (some "p") "ts").1 := by
  exact (C5_pack_entries_are_source_files fsFixtureE ["src2"] ["outdir"]
    (some "p") "ts"
    (.ofList [("f.txt", FSTree.file "y"),
      ("sub", FSTree.dirL [("g.meta", FSTree.file "z")])])
    (by decide) (by decide) ("sub/g.meta", "z")).mpr
    (Or.inr ⟨(["sub", "g.meta"], "z"), by decide, by decide⟩)

/-- Counterexample to C5 as stated: for an existing source directory
whose output directory is nested inside it, the entry set (markers
excluded) is strictly smaller than the set of regular files below the
source — the pruned `out` subtree's file is under the source but absent
from the archive. -/
theorem C5_counterexample_nested_output :
    fsFixtureD ["s"] = FSNode.dir (.ofList [("a.meta", FSTree.file "x"),
      ("out", FSTree.dirL [("old.zip", FSTree.file "old")])]) ∧
    (["out", "old.zip"], "old") ∈ allFilesFrom []
      (.ofList [("a.meta", FSTree.file "x"),
        ("out", FSTree.dirL [("old.zip", FSTree.file "old")])]) ∧
    (posix ["out", "old.zip"], "old") ∉
      entriesOf (create_pack fsFixtureD ["s"] ["s", "out"] (some "p") "ts").1 := by
  decide

/-- Folding one more write into the archive map. -/
theorem resolveEntries_append_one (w : List (String × String))
    (e : String × String) :
    resolveEntries (w ++ [e]) = insertEntry (resolveEntries w) e := by
  simp [resolveEntries, List.foldl_append]

/-- Overwriting an existing key leaves the key list unchanged. -/
theorem insertEntry_keys (entries : List (String × String))
    (e : String × String) :
    ((entries.map fun x => if x.1 = e.1 then (x.1, e.2) else x).map Prod.fst) =
      entries.map Prod.fst := by
  rw [List.map_map]
  apply List.map_congr_left
  intro x _
  by_cases h : x.1 = e.1 <;> simp [h]

/-- `insertEntry` preserves distinctness of archive paths. -/
theorem insertEntry_nodup (entries : List (String × String))
    (e : String × String) (h : (entries.map Prod.fst).Nodup) :
    ((insertEntry entries e).map Prod.fst).Nodup := by
  unfold insertEntry
  split_ifs with hmem
  · rw [insertEntry_keys]
    exact h
  · rw [List.map_append]
    simp only [List.any_eq_true, decide_eq_true_eq, not_exists, not_and] at hmem
    refine List.Nodup.append h (List.nodup_singleton _) ?_
    intro k hk hk2
    simp only [List.map_cons, List.map_nil, List.mem_singleton] at hk2
    obtain ⟨x, hx, hfx⟩ := List.mem_map.mp hk
    exact hmem x hx (by rw [hfx, hk2])

/-- Every archive map has pairwise-distinct paths. -/
theorem resolveEntries_nodup (w : List (String × String)) :
    ((resolveEntries w).map Prod.fst).Nodup := by
  induction w using List.reverseRecOn with
  | nil => simp [resolveEntries]
  | append_singleton w e ih =>
      rw [resolveEntries_append_one]
      exact insertEntry_nodup _ _ ih

/-- `find?` only looks at the predicate's values. -/
theorem find?_congr_local {α : Type} (l : List α) (p q : α → Bool)
    (h : ∀ x, p x = q x) : l.find? p = l.find? q := by
  induction l with
  | nil => rfl
  | cons a t ih => rw [List.find?_cons, List.find?_cons, h a, ih]

/-- Key lookup commutes with the value-overwrite map of `insertEntry`. -/
theorem map_insert_find? (entries : List (String × String)) (k v p : String) :
    ((entries.map fun x => if x.1 = k then (x.1, v) else x).find?
        fun z => z.1 = p) =
      (entries.find? fun z => z.1 = p).map
        fun x => if x.1 = k then (x.1, v) else x := by
  rw [List.find?_map]
  rw [find?_congr_local entries _ (fun z => z.1 = p)]
  intro z
  by_cases hz : z.1 = k <;> simp [hz]

/-- Reading a path after one more write: the written path now stores the
new content, every other path is untouched. -/
theorem firstVal_insertEntry (entries : List (String × String))
    (e : String × String) (p : String) :
    firstVal (insertEntry entries e) p =
      if p = e.1 then some e.2 else firstVal entries p := by
  unfold insertEntry firstVal
  split_ifs with hmem hp1 hp2
  · rw [map_insert_find? entries e.1 e.2 p]
    simp only [List.any_eq_true, decide_eq_true_eq] at hmem
    obtain ⟨x, hx, hfx⟩ := hmem
    cases hf : entries.find? fun z => decide (z.1 = p) with
    | none =>
        rw [List.find?_eq_none] at hf
        have hcontra := hf x hx
        simp [hfx, hp1] at hcontra
    | some y =>
        have hyp : y.1 = p := by simpa using List.find?_some hf
        simp [hyp, hp1]
  · rw [map_insert_find? entries e.1 e.2 p]
    cases hf : entries.find? fun z => decide (z.1 = p) with
    | none => rfl
    | some y =>
        have hyp : y.1 = p := by simpa using List.find?_some hf
        have hne : ¬(y.1 = e.1) := by rw [hyp]; exact fun h => hp1 h
        simp [hne]
  · rw [List.find?_append]
    simp only [List.any_eq_true, decide_eq_true_eq, not_exists, not_and] at hmem
    have hnone : entries.find? (fun z => decide (z.1 = p)) = none := by
      rw [List.find?_eq_none]
      intro x hx
      simp [hmem x hx, hp2]
    rw [hnone]
    simp [List.find?_cons, hp2]
  · rw [List.find?_append]
    have hsingle : ([e].find? fun z => decide (z.1 = p)) = none := by
      have he : (e.1 = p) = False := eq_false fun h => hp2 h.symm
      simp [List.find?_cons, he]
    rw [hsingle]
    cases entries.find? fun z => decide (z.1 = p) <;> rfl

/-- The last write to a path in a sequence extended by one write. -/
theorem lastWrite_append_one (w : List (String × String))
    (e : String × String) (p : String) :
    lastWrite (w ++ [e]) p = if p = e.1 then some e.2 else lastWrite w p := by
  unfold lastWrite
  rw [List.filter_append]
  by_cases hp : p = e.1
  · have hfil : List.filter (fun x : String × String => decide (x.1 = p)) [e] =
        [e] := by
      simp [List.filter_cons, hp]
    rw [hfil, List.getLast?_concat]
    simp [hp]
  · have hfil : List.filter (fun x : String × String => decide (x.1 = p)) [e] =
        [] := by
      have he : (e.1 = p) = False := eq_false fun h => hp h.symm
      simp [List.filter_cons, he]
    rw [hfil, List.append_nil]
    simp [hp]

/-- Reading the archive map gives the content of the last write. -/
theorem resolveEntries_lastWrite (w : List (String × String)) (p : String) :
    firstVal (resolveEntries w) p = lastWrite w p := by
  induction w using List.reverseRecOn with
  | nil => rfl
  | append_singleton w e ih =>
      rw [resolveEntries_append_one, firstVal_insertEntry, lastWrite_append_one,
        ih]

/-- C2: viewing the archive produced by `create_carpack` as a path-keyed
map (the read-side semantics of `zipfile`), no two entries share a path
(the key list is duplicate-free); when several writes hit the same
destination path the stored content is that of the last write; and a
destination collision never raises — a run whose validations pass
returns the archive path successfully no matter how vehicle files
collide. -/
theorem C2_last_write_wins_no_error :
    (∀ (fs : FPath → FSNode) (vf : List FPath) (op : FPath)
        (nm : Option String) (td a s f : Option FPath) (ts : String)
        (vehicles : List (FPath × FSEntries)) (audio sfxDir manifest : FPath)
        (tentries : List (String × String)),
      vf ≠ [] → validateVehicles fs vf = .ok vehicles →
      resolveTemplate td a s f = .ok (audio, sfxDir, manifest) →
      write_template_files fs audio sfxDir manifest = .ok tentries →
        (create_carpack fs vf op nm td a s f ts).2 =
          .ok (op ++ [carpackZipName nm ts]) ∧
        ((resolveEntries
            (entriesOf (create_carpack fs vf op nm td a s f ts).1)).map
          Prod.fst).Nodup) ∧
    (∀ (writes : List (String × String)) (p : String),
      firstVal (resolveEntries writes) p = lastWrite writes p) := by
  constructor
  · intro fs vf op nm td a s f ts vehicles audio sfxDir manifest tentries hne
      hval hres hwt
    constructor
    · simp [create_carpack, hne, hval, hres, hwt]
    · exact resolveEntries_nodup _
  · exact resolveEntries_lastWrite

/-- A filesystem holding two vehicle directories that share the basename
`car` and both contain `m.meta` (with different contents), plus a valid
individually-supplied template; used to exercise a destination-path
collision. -/
def fsFixtureC : FPath → FSNode := fun p =>
  if p = ["a", "car"] then FSNode.dir (.ofList [("m.meta", .file "first")])
  else if p = ["b", "car"] then FSNode.dir (.ofList [("m.meta", .file "second")])
  else if p = ["ta"] then FSNode.dir .nil
  else if p = ["tsx"] then FSNode.dir .nil
  else if p = ["tf"] then FSNode.file "fx"
  else FSNode.absent

/-- Witness for C2 at a concrete collision: two vehicles named `car`
both write `data/car/m.meta`; the run succeeds, the archive map has
duplicate-free paths, and reading `data/car/m.meta` yields the second
vehicle's content (last write wins). -/
theorem C2_last_write_wins_no_error_witness :
    (create_carpack fsFixtureC [["a", "car"], ["b", "car"]] ["out"] (some "p")
        none (some ["ta"]) (some ["tsx"]) (some ["tf"]) "ts").2 =
      .ok ["out", "p.zip"] ∧
    ((resolveEntries
        (entriesOf (create_carpack fsFixtureC [["a", "car"], ["b", "car"]]
          ["out"] (some "p") none (some ["ta"]) (some ["tsx"]) (some ["tf"])
          "ts").1)).map Prod.fst).Nodup ∧
    firstVal (resolveEntries
        (entriesOf (create_carpack fsFixtureC [["a", "car"], ["b", "car"]]
          ["out"] (some "p") none (some ["ta"]) (some ["tsx"]) (some ["tf"])
          "ts").1)) "data/car/m.meta" = some "second" := by
  have hmain := C2_last_write_wins_no_error.1 fsFixtureC
    [["a", "car"], ["b", "car"]] ["out"] (some "p") none (some ["ta"])
    (some ["tsx"]) (some ["tf"]) "ts"
    [(["a", "car"], FSEntries.ofList [("m.meta", .file "first")]),
     (["b", "car"], FSEntries.ofList [("m.meta", .file "second")])]
    ["ta"] ["tsx"] ["tf"] [("fxmanifest.lua", "fx")]
    (by decide) (by decide) (by decide) (by decide)
  refine ⟨hmain.1, hmain.2, ?_⟩
  rw [C2_last_write_wins_no_error.2]
  decide

/-- A filesystem with one valid vehicle directory at `veh1` and a
regular file at `vehfile`; everything else absent. -/
def fsFixtureA : FPath → FSNode := fun p =>
  if p = ["veh1"] then FSNode.dir .nil
  else if p = ["vehfile"] then FSNode.file "not a directory"
  else FSNode.absent

/-- C10: in both `create_pack` and `create_carpack`, a `pack_name` equal
to the empty string behaves exactly like an absent `pack_name`: the
truthiness test (`if pack_name:`) sends both to the timestamp-based
default archive name (`pack_<timestamp>.zip` / `carpack_<timestamp>.zip`)
rather than to `".zip"`. -/
theorem C10_empty_name_same_as_none :
    (∀ (fs : FPath → FSNode) (sp op : FPath) (ts : String),
      create_pack fs sp op (some "") ts = create_pack fs sp op none ts) ∧
    (∀ (fs : FPath → FSNode) (vf : List FPath) (op : FPath)
        (td a s f : Option FPath) (ts : String),
      create_carpack fs vf op (some "") td a s f ts =
        create_carpack fs vf op none td a s f ts) ∧
    (∀ ts : String,
      packZipName (some "") ts = "pack_" ++ ts ++ ".zip" ∧
      carpackZipName (some "") ts = "carpack_" ++ ts ++ ".zip") := by
  refine ⟨?_, ?_, ?_⟩
  · intro fs sp op ts
    unfold create_pack
    rw [show packZipName (some "") ts = packZipName none ts from rfl]
  · intro fs vf op td a s f ts
    unfold create_carpack
    rw [show carpackZipName (some "") ts = carpackZipName none ts from rfl]
  · intro ts
    exact ⟨rfl, rfl⟩

/-- C9: every archive either function produces starts with the four
fixed top-level directory markers `audioconfig/`, `data/`, `stream/`,
`sfx/`, written first and unconditionally: as soon as a run reaches the
point of creating the archive file, its entry list is `markerEntries`
followed by whatever else the run writes — for `create_carpack` this
holds regardless of the template's or the vehicles' contents (even when
the template writer later fails). -/
theorem C9_markers_always_first :
    (∀ (fs : FPath → FSNode) (sp op : FPath) (nm : Option String) (ts : String)
        (cs : FSEntries), fs sp = FSNode.dir cs →
      ∃ rest, entriesOf (create_pack fs sp op nm ts).1 = markerEntries ++ rest) ∧
    (∀ (fs : FPath → FSNode) (vf : List FPath) (op : FPath) (nm : Option String)
        (td a s f : Option FPath) (ts : String)
        (vehicles : List (FPath × FSEntries)) (audio sfxDir manifest : FPath),
      vf ≠ [] → validateVehicles fs vf = .ok vehicles →
      resolveTemplate td a s f = .ok (audio, sfxDir, manifest) →
      ∃ rest, entriesOf (create_carpack fs vf op nm td a s f ts).1 =
        markerEntries ++ rest) := by
  constructor
  · intro fs sp op nm ts cs hdir
    have hrun : (create_pack fs sp op nm ts).1 =
        [Effect.mkdirOutput op,
         Effect.createArchiveFile (op ++ [packZipName nm ts])]
          ++ (markerEntries
              ++ (walkPrune sp op (op ++ [packZipName nm ts]) cs).map
                  (fun rc => (posix rc.1, rc.2))).map
              fun e => Effect.writeEntry e.1 e.2 := by
      simp [create_pack, hdir]
    refine ⟨(walkPrune sp op (op ++ [packZipName nm ts]) cs).map
      (fun rc => (posix rc.1, rc.2)), ?_⟩
    rw [hrun, entriesOf_append, List.map_append, entriesOf_append,
      entriesOf_mapWrites, entriesOf_mapWrites]
    rfl
  · intro fs vf op nm td a s f ts vehicles audio sfxDir manifest hne hval hres
    cases hw : write_template_files fs audio sfxDir manifest with
    | error e =>
        have hrun : (create_carpack fs vf op nm td a s f ts).1 =
            [Effect.mkdirOutput op,
             Effect.createArchiveFile (op ++ [carpackZipName nm ts])]
              ++ markerEntries.map fun e => Effect.writeEntry e.1 e.2 := by
          simp [create_carpack, hne, hval, hres, hw]
        refine ⟨[], ?_⟩
        rw [hrun, entriesOf_append, entriesOf_mapWrites, List.append_nil]
        rfl
    | ok templateEntries =>
        have hrun : (create_carpack fs vf op nm td a s f ts).1 =
            [Effect.mkdirOutput op,
             Effect.createArchiveFile (op ++ [carpackZipName nm ts])]
              ++ (markerEntries ++ templateEntries
                  ++ (vehicles.map fun rc =>
                      vehicleEntries (op ++ [carpackZipName nm ts]) rc.1
                        rc.2).flatten).map
                  fun e => Effect.writeEntry e.1 e.2 := by
          simp [create_carpack, hne, hval, hres, hw]
        refine ⟨templateEntries
          ++ (vehicles.map fun rc =>
              vehicleEntries (op ++ [carpackZipName nm ts]) rc.1 rc.2).flatten, ?_⟩
        rw [hrun, entriesOf_append, List.map_append, List.map_append,
          entriesOf_append, entriesOf_append, entriesOf_mapWrites,
          entriesOf_mapWrites, entriesOf_mapWrites]
        simp [entriesOf]

/-- Witness for C9 at concrete inputs: a `create_pack` run over an empty
source directory and a `create_carpack` run with an invalid template
both begin their entry lists with the four markers. -/
theorem C9_markers_always_first_witness :
    (∃ rest, entriesOf (create_pack fsFixtureA ["veh1"] ["out"] (some "p")
        "ts").1 = markerEntries ++ rest) ∧
    (∃ rest, entriesOf (create_carpack fsFixtureA [["veh1"]] ["out"] none
        (some ["tpl"]) none none none "ts").1 = markerEntries ++ rest) := by
  constructor
  · exact C9_markers_always_first.1 fsFixtureA ["veh1"] ["out"] (some "p") "ts"
      .nil (by decide)
  · exact C9_markers_always_first.2 fsFixtureA [["veh1"]] ["out"] none
      (some ["tpl"]) none none none "ts" [(["veh1"], FSEntries.nil)]
      ["tpl", "audioconfig"] ["tpl", "sfx"] ["tpl", "fxmanifest.lua"]
      (by decide) (by decide) (by decide)

/-- C3: in `create_carpack`, whenever one of the three individual
template paths is missing, all three are derived from `template_dir`
by its fixed sub-paths (`audioconfig`, `sfx`, `fxmanifest.lua`),
overriding any individually supplied ones; and if `template_dir` is
also missing in that situation, the run fails with `ValidationError`
(`ValueError`) before the archive file is created — the trace holds
only the output-directory creation. -/
theorem C3_template_resolution :
    (∀ (td : FPath) (a s f : Option FPath),
      (a.isNone || s.isNone || f.isNone) = true →
        resolveTemplate (some td) a s f =
          .ok (td ++ ["audioconfig"], td ++ ["sfx"], td ++ ["fxmanifest.lua"])) ∧
    (∀ (fs : FPath → FSNode) (folders : List FPath) (op : FPath)
        (nm : Option String) (a s f : Option FPath) (ts : String)
        (vehicles : List (FPath × FSEntries)),
      folders ≠ [] → validateVehicles fs folders = .ok vehicles →
      (a.isNone || s.isNone || f.isNone) = true →
        create_carpack fs folders op nm none a s f ts =
          ([Effect.mkdirOutput op],
           .error (.validation
             "Either individual template paths or template_dir must be provided."))) := by
  constructor
  · intro td a s f h
    simp [resolveTemplate, h]
  · intro fs folders op nm a s f ts vehicles hne hval h
    simp [create_carpack, hne, hval, resolveTemplate, h]

/-- Witness for C3 at concrete inputs: with a valid vehicle and only the
`sfx` path supplied individually, a supplied `template_dir` rederives
all three paths; with no `template_dir`, the run aborts with
`ValidationError` and an effect trace holding only the creation of the
output directory. -/
theorem C3_template_resolution_witness :
    resolveTemplate (some ["tpl"]) none (some ["mysfx"]) none =
        .ok (["tpl", "audioconfig"], ["tpl", "sfx"], ["tpl", "fxmanifest.lua"]) ∧
    create_carpack fsFixtureA [["veh1"]] ["out"] none none none (some ["mysfx"])
        none "ts" =
      ([Effect.mkdirOutput ["out"]],
       .error (.validation
         "Either individual template paths or template_dir must be provided.")) := by
  constructor
  · exact C3_template_resolution.1 ["tpl"] none (some ["mysfx"]) none (by decide)
  · have hval : validateVehicles fsFixtureA [["veh1"]] =
        Except.ok ([(["veh1"], FSEntries.nil)] : List (FPath × FSEntries)) := by
      decide
    exact C3_template_resolution.2 fsFixtureA [["veh1"]] ["out"] none none
      (some ["mysfx"]) none "ts" [(["veh1"], FSEntries.nil)] (by decide)
      hval (by decide)

/-- C4: the template writer checks all three of its inputs before
producing any archive write — `NotADirectoryError` when the
`audioconfig` path is not a directory, `NotADirectoryError` when it is
but the `sfx` path is not a directory, `FileNotFoundError` when both
are but the manifest path is not a regular file — and consequently,
whenever the template writer fails, `create_carpack` aborts with that
error after writing only the four directory markers: no vehicle file
entry is ever written. -/
theorem C4_template_checks_before_writes :
    (∀ (fs : FPath → FSNode) (a s f : FPath),
      (∀ cs, fs a ≠ FSNode.dir cs) →
        write_template_files fs a s f = .error (.notADirectory a)) ∧
    (∀ (fs : FPath → FSNode) (a s f : FPath) (ac : FSEntries),
      fs a = FSNode.dir ac → (∀ cs, fs s ≠ FSNode.dir cs) →
        write_template_files fs a s f = .error (.notADirectory s)) ∧
    (∀ (fs : FPath → FSNode) (a s f : FPath) (ac sc : FSEntries),
      fs a = FSNode.dir ac → fs s = FSNode.dir sc →
      (∀ c, fs f ≠ FSNode.file c) →
        write_template_files fs a s f = .error (.notFound f)) ∧
    (∀ (fs : FPath → FSNode) (folders : List FPath) (op : FPath)
        (nm : Option String) (td a s f : Option FPath) (ts : String)
        (vehicles : List (FPath × FSEntries)) (audio sfxDir manifest : FPath)
        (e : PackError),
      folders ≠ [] → validateVehicles fs folders = .ok vehicles →
      resolveTemplate td a s f = .ok (audio, sfxDir, manifest) →
      write_template_files fs audio sfxDir manifest = .error e →
        create_carpack fs folders op nm td a s f ts =
          ([Effect.mkdirOutput op,
            Effect.createArchiveFile (op ++ [carpackZipName nm ts])]
            ++ markerEntries.map fun x => Effect.writeEntry x.1 x.2,
           .error e) ∧
          entriesOf (create_carpack fs folders op nm td a s f ts).1 =
            markerEntries) := by
  refine ⟨?_, ?_, ?_, ?_⟩
  · intro fs a s f ha
    unfold write_template_files
    cases h : fs a with
    | absent => rfl
    | file c => rfl
    | dir cs => exact absurd h (ha cs)
  · intro fs a s f ac ha hs
    unfold write_template_files
    rw [ha]
    cases h : fs s with
    | absent => rfl
    | file c => rfl
    | dir cs => exact absurd h (hs cs)
  · intro fs a s f ac sc ha hs hf
    unfold write_template_files
    rw [ha, hs]
    cases h : fs f with
    | absent => rfl
    | dir cs => rfl
    | file c => exact absurd h (hf c)
  · intro fs folders op nm td a s f ts vehicles audio sfxDir manifest e hne
      hval hres hwt
    have hrun : create_carpack fs folders op nm td a s f ts =
        ([Effect.mkdirOutput op,
          Effect.createArchiveFile (op ++ [carpackZipName nm ts])]
          ++ markerEntries.map fun x => Effect.writeEntry x.1 x.2,
         .error e) := by
      simp [create_carpack, hne, hval, hres, hwt]
    refine ⟨hrun, ?_⟩
    rw [hrun]
    rw [show ([Effect.mkdirOutput op,
          Effect.createArchiveFile (op ++ [carpackZipName nm ts])]
          ++ markerEntries.map fun x => Effect.writeEntry x.1 x.2,
        Except.error (α := FPath) e).1 =
        [Effect.mkdirOutput op,
          Effect.createArchiveFile (op ++ [carpackZipName nm ts])]
          ++ markerEntries.map fun x => Effect.writeEntry x.1 x.2 from rfl]
    rw [entriesOf_append, entriesOf_mapWrites]
    rfl

/-- A filesystem for the C4 witness: a valid vehicle at `veh4`, a
template root `tpl4` whose `audioconfig` exists but whose `sfx`
sub-path is absent. -/
def fsFixtureB : FPath → FSNode := fun p =>
  if p = ["veh4"] then
    FSNode.dir (.ofList [("car.meta", .file "m")])
  else if p = ["tpl4", "audioconfig"] then FSNode.dir .nil
  else if p = ["tpl4", "fxmanifest.lua"] then FSNode.file "fx"
  else FSNode.absent

/-- Witness for C4 at concrete inputs: with a template whose `sfx`
directory is missing, `create_carpack` stops with `NotADirectoryError`
naming the `sfx` path, and the archive holds exactly the four markers —
the vehicle's `car.meta` is never written. -/
theorem C4_template_checks_before_writes_witness :
    write_template_files fsFixtureB ["tpl4", "audioconfig"] ["tpl4", "sfx"]
        ["tpl4", "fxmanifest.lua"] = .error (.notADirectory ["tpl4", "sfx"]) ∧
    entriesOf (create_carpack fsFixtureB [["veh4"]] ["out"] none (some ["tpl4"])
        none none none "ts").1 = markerEntries ∧
    (create_carpack fsFixtureB [["veh4"]] ["out"] none (some ["tpl4"])
        none none none "ts").2 = .error (.notADirectory ["tpl4", "sfx"]) := by
  have hw : write_template_files fsFixtureB ["tpl4", "audioconfig"] ["tpl4", "sfx"]
      ["tpl4", "fxmanifest.lua"] = .error (.notADirectory ["tpl4", "sfx"]) :=
    C4_template_checks_before_writes.2.1 fsFixtureB ["tpl4", "audioconfig"]
      ["tpl4", "sfx"] ["tpl4", "fxmanifest.lua"] .nil (by decide)
      (by intro cs h; simp [fsFixtureB] at h)
  obtain ⟨hrun, hentries⟩ :=
    C4_template_checks_before_writes.2.2.2 fsFixtureB [["veh4"]] ["out"] none
      (some ["tpl4"]) none none none "ts"
      [(["veh4"], FSEntries.ofList [("car.meta", .file "m")])]
      ["tpl4", "audioconfig"] ["tpl4", "sfx"] ["tpl4", "fxmanifest.lua"]
      (.notADirectory ["tpl4", "sfx"]) (by decide) (by decide) (by decide) hw
  exact ⟨hw, hentries, by rw [hrun]⟩

/-- Witness for C7 at concrete inputs: an absent source fails `create_pack`
with `FileNotFoundError`, a file source with `NotADirectoryError`; in
`create_carpack`, with a valid first vehicle, an absent second entry is
the first offender reported, with an empty trace. -/
theorem C7_path_type_validation_witness :
    create_pack fsFixtureA ["missing"] ["out"] none "ts" =
        ([], .error (.notFound ["missing"])) ∧
    create_pack fsFixtureA ["vehfile"] ["out"] none "ts" =
        ([], .error (.notADirectory ["vehfile"])) ∧
    create_carpack fsFixtureA [["veh1"], ["missing"]] ["out"] none none none none
        none "ts" = ([], .error (.notFound ["missing"])) ∧
    create_carpack fsFixtureA [["veh1"], ["vehfile"]] ["out"] none none none none
        none "ts" = ([], .error (.notADirectory ["vehfile"])) := by
  obtain ⟨h1, h2, h3, h4⟩ := C7_path_type_validation
  refine ⟨h1 fsFixtureA ["missing"] ["out"] none "ts" (by decide),
          h2 fsFixtureA ["vehfile"] ["out"] none "ts" "not a directory" (by decide),
          h3 fsFixtureA [["veh1"]] ["missing"] [] ["out"] none none none none none
            "ts" ?_ (by decide),
          h4 fsFixtureA [["veh1"]] ["vehfile"] [] ["out"] none none none none none
            "ts" "not a directory" ?_ (by decide)⟩
  · intro q hq
    simp only [List.mem_singleton] at hq
    subst hq
    exact ⟨.nil, by decide⟩
  · intro q hq
    simp only [List.mem_singleton] at hq
    subst hq
    exact ⟨.nil, by decide⟩
